import Mathlib

namespace Eonza

/-!
Verification of the eonza code-generation core and its runtime support
library, as a shallow embedding of `src/gensource.go` and
`src/script/embedded.go`.

Go's mutable receiver state (`*Source`) is threaded explicitly: every
method that mutates the receiver returns the updated `Source` alongside
its Go return value.  Fallible Go functions (returning `(T, error)`)
become `Except`.  Machine integers are modelled as `Nat`/`Int`; every
64-bit value produced by the CRC64 code stays below `2^64` by
construction (xor, halving and byte extraction never enlarge values).
-/

/-! ## Constants from `src/script/embedded.go` (lines 16-30) -/

def LOG_DISABLE : Int := 0
def LOG_ERROR : Int := 1
def LOG_WARN : Int := 2
def LOG_INFO : Int := 3
def LOG_DEBUG : Int := 4
def LOG_INHERIT : Int := 5

def VarChar : Char := '#'
def VarLength : Nat := 32
def VarDeep : Nat := 16

/-- Errors of the macro engine (`ErrVarLoop` / `ErrVarDeep` in
`embedded.go`); `varLoop` carries the offending variable name that Go
formats into the message. -/
inductive MErr where
  | varLoop (name : String)
  | varTooDeep
deriving DecidableEq, Repr

/-- The character-scanning loop of `replace` (`embedded.go` lines 105-148).
`values` is the active scope (Go: `map[string]string`), `found` is what the
surrounding `replace` does when a completed name is bound in the scope
(loop/depth checks plus the recursive expansion); the remaining arguments
are the loop state `input[i:]`, `isName`, `name` and `result`.
The Go `i--` in the not-found branch makes the closing sigil be re-read
with `isName == false`, which just toggles `isName` back on; that
two-step dance is fused here into a single step that keeps `isName` on. -/
def scan (values : String → Option String)
    (found : String → String → Except MErr (List Char)) :
    List Char → Bool → List Char → List Char → Except MErr (List Char)
  | [], isName, name, result =>
    .ok (if isName then result ++ VarChar :: name else result)
  | c :: rest, isName, name, result =>
    if c ≠ VarChar then
      if isName then
        let name := name ++ [c]
        if name.length > VarLength then
          scan values found rest false [] (result ++ VarChar :: name)
        else
          scan values found rest true name result
      else
        scan values found rest isName name (result ++ [c])
    else
      if isName then
        match values (String.mk name) with
        | some value =>
          (found (String.mk name) value).bind fun tmp =>
            scan values found rest false [] (result ++ tmp)
        | none =>
          scan values found rest true [] (result ++ VarChar :: name)
      else
        scan values found rest true name result

/-- `replace` from `embedded.go` lines 92-150.  The Go function recurses
into the stored value of every bound name it meets; the recursion is
bounded because the expansion stack gains one entry per nested call and
the depth check fails once it holds `VarDeep` entries.  That bound is
made structural here through `fuel`, kept equal to `VarDeep + 1` minus
the stack length at every call, so the `0` case is unreachable from the
`Macro` entry point. -/
def replace (values : String → Option String) :
    Nat → List String → List Char → Except MErr (List Char)
  | 0, _, _ => .error .varTooDeep
  | fuel + 1, stack, input =>
    if input = [] ∨ ¬ input.contains VarChar then
      .ok input
    else
      scan values
        (fun name value =>
          if stack.length < VarDeep then
            if stack.contains name then
              .error (.varLoop name)
            else
              replace values fuel (stack ++ [name]) value.data
          else
            .error .varTooDeep)
        input false [] []

/-- `Macro` from `embedded.go` lines 152-158: expands the input against
the top scope of the runtime scope stack, which is passed in as `vars`
(Go reads `dataScript.Vars[len(dataScript.Vars)-1]` under the lock). -/
def Macro (vars : String → Option String) (input : String) :
    Except MErr String :=
  (replace vars (VarDeep + 1) [] input.data).map String.mk

deriving instance DecidableEq for Except

/-! ## Concrete scopes used by the macro-engine claims -/

def scopeNested : String → Option String := fun s =>
  if s = "A" then some "x#B#y" else if s = "B" then some "mid" else none

def scopeSelf : String → Option String := fun s =>
  if s = "A" then some "#A#" else none

def scopeMutual : String → Option String := fun s =>
  if s = "A" then some "#B#" else if s = "B" then some "#A#" else none

/-- A chain `A0 -> A1 -> ... -> A16` deep enough to hit the depth guard:
when `A16` is found, the expansion stack already holds the 16 names
`A0..A15`. -/
def scopeDeep : String → Option String := fun s =>
  (List.map (fun i => ("A" ++ toString i, "#A" ++ toString (i + 1) ++ "#"))
      (List.range 16) ++ [("A16", "x")]).lookup s

def scopeOne : String → Option String := fun s =>
  if s = "B" then some "v" else none

/-! ## `src/gensource.go`: CRC64 string interning

Go hashes every interned string with `crc64.Checksum(bytes, crc64.MakeTable(crc64.ISO))`.
The model reproduces Go's `hash/crc64` table construction and update
loop bit for bit on `Nat`. -/

/-- `crc64.ISO`, the (reversed) ISO polynomial used by `MakeTable`. -/
def crc64Poly : Nat := 0xD800000000000000

/-- All-ones 64-bit word; `^x` in Go is `mask64 ^^^ x` here. -/
def mask64 : Nat := 2 ^ 64 - 1

/-- One shift round of Go's `crc64.makeTable` inner loop:
`if crc&1 == 1 { crc = crc>>1 ^ poly } else { crc >>= 1 }`. -/
def crc64Shift (crc : Nat) : Nat :=
  if crc % 2 = 1 then (crc / 2) ^^^ crc64Poly else crc / 2

/-- Entry `n` of the table built by `crc64.MakeTable(crc64.ISO)`:
eight shift rounds applied to the byte value. -/
def crc64TableEntry (n : Nat) : Nat :=
  (List.range 8).foldl (fun crc _ => crc64Shift crc) n

/-- One byte step of Go's `crc64.update`:
`crc = tab[byte(crc)^v] ^ (crc >> 8)`. -/
def crc64Update (crc b : Nat) : Nat :=
  crc64TableEntry ((crc % 256) ^^^ b) ^^^ (crc / 256)

/-- `crc64.Checksum(data, tab)`: complement, fold the bytes, complement. -/
def crc64 (bytes : List Nat) : Nat :=
  mask64 ^^^ (bytes.foldl crc64Update mask64)

/-- UTF-8 bytes of one character, as Go's `[]byte(string)` conversion
produces them. -/
def charBytes (c : Char) : List Nat :=
  let n := c.toNat
  if n < 0x80 then [n]
  else if n < 0x800 then [0xC0 + n / 64, 0x80 + n % 64]
  else if n < 0x10000 then
    [0xE0 + n / 4096, 0x80 + n / 64 % 64, 0x80 + n % 64]
  else
    [0xF0 + n / 262144, 0x80 + n / 4096 % 64, 0x80 + n / 64 % 64,
      0x80 + n % 64]

/-- The byte sequence Go hashes for a string value. -/
def strBytes (s : String) : List Nat := s.data.flatMap charBytes

/-- `crc64.Checksum([]byte(value), src.CRCTable)` as in
`FindStrConst` (`gensource.go` line 58). -/
def crcStr (s : String) : Nat := crc64 (strBytes s)

/-! ## Executable models of the Go `strings` helpers used by
`gensource.go` (`TrimSpace`, `ReplaceAll`, `ContainsRune`, `ContainsAny`,
`HasPrefix`); Lean's built-in `String` versions are avoided because they
do not reduce inside the kernel. -/

/-- `unicode.IsSpace` on the code points Go's `strings.TrimSpace`
trims. -/
def isSpaceGo (c : Char) : Bool :=
  c = ' ' ∨ c = '\t' ∨ c = '\n' ∨ c.toNat = 0xB ∨ c.toNat = 0xC
    ∨ c = '\r' ∨ c.toNat = 0x85 ∨ c.toNat = 0xA0

/-- `strings.TrimSpace`. -/
def goTrimSpace (s : String) : String :=
  String.mk (((s.data.dropWhile isSpaceGo).reverse.dropWhile
      isSpaceGo).reverse)

/-- `strings.ContainsRune`. -/
def goContainsRune (s : String) (c : Char) : Bool := s.data.contains c

/-- `strings.ContainsAny`. -/
def goContainsAny (s chars : String) : Bool :=
  s.data.any (fun c => chars.data.contains c)

/-- `strings.HasPrefix`. -/
def goHasPrefix (s pre : String) : Bool := pre.data.isPrefixOf s.data

/-- The scanning loop of `strings.ReplaceAll` for a non-empty pattern:
replace the leftmost occurrence, continue after the replacement.  `fuel`
bounds the recursion structurally; with `fuel = input length + 1` and a
non-empty pattern it never runs out (each step consumes at least one
input character). -/
def goReplaceAllAux (pat rep : List Char) : Nat → List Char → List Char
  | 0, l => l
  | _ + 1, [] => []
  | fuel + 1, c :: rest =>
    if pat.isPrefixOf (c :: rest) then
      rep ++ goReplaceAllAux pat rep fuel ((c :: rest).drop pat.length)
    else
      c :: goReplaceAllAux pat rep fuel rest

/-- `strings.ReplaceAll(s, pat, rep)` (every call site in `gensource.go`
passes a non-empty pattern). -/
def goReplaceAll (s pat rep : String) : String :=
  String.mk (goReplaceAllAux pat.data rep.data (s.data.length + 1) s.data)

/-! ## Data model of `gensource.go`

`scriptTree`, `Script` and friends are declared elsewhere in the eonza
repository; their fields are mirrored here exactly as `gensource.go`
reads them.  Go maps become lookup functions or association lists. -/

/-- `es.Header`; only its `Lang` field is read by `gensource.go`. -/
structure Header where
  Lang : String

/-- Modelled from the spec: the parameter kinds (`PCheckbox`, `PTextarea`,
`PSingleText`, `PSelect`, `PNumber`, `PList`) are constants declared
outside the provided sources; the spec lists exactly these six kinds. -/
inductive PType where
  | PCheckbox
  | PTextarea
  | PSingleText
  | PSelect
  | PNumber
  | PList
deriving DecidableEq, Repr

/-- A parameter spec's `Options`: `Required`, `Default`, and the Select
raw-passthrough `Type` (renamed `Type_`, `Type` being reserved in Lean). -/
structure POptions where
  Required : Bool
  Default : String
  Type_ : String

/-- One declared parameter of a script definition, as read by
`ScriptValues` (`par.Name`, `par.Title`, `par.Type`, `par.Options`). -/
structure ParamDef where
  Name : String
  Title : String
  Type_ : PType
  Options : POptions

/-- `script.Settings` fields read by `gensource.go`. -/
structure ScriptSettings where
  Name : String
  Title : String
  LogLevel : Int

/-- A raw, dynamically typed value from `node.Values` (Go
`interface{}`): the shapes the coercion code distinguishes. -/
inductive RawVal where
  | str (s : String)
  | num (n : Int)
  | boolean (b : Bool)
  | list (items : List String)

/-- `fmt.Sprint` on the raw value shapes above. -/
def sprint : RawVal → String
  | .str s => s
  | .num n => toString n
  | .boolean b => if b then "true" else "false"
  | .list items => "[" ++ String.intercalate " " items ++ "]"

/-- A node of the user-authored invocation tree (`scriptTree`). -/
structure scriptTree where
  Name : String
  Disable : Bool
  Values : String → Option RawVal
  Children : List scriptTree

/-- The zero value `scriptTree{}` used by `GenSource` for the root call. -/
def scriptTree.empty : scriptTree :=
  { Name := "", Disable := false, Values := fun _ => none, Children := [] }

/-- A script definition, with the fields `gensource.go` reads
(`Settings`, `Params`, `Code`, `Langs`, `Tree`).  `Langs` maps a language
code to that language's key/value table (Go: nested string maps, the
inner map as an association list with unique keys). -/
structure Script where
  Settings : ScriptSettings
  Params : List ParamDef
  Code : String
  Langs : String → List (String × String)
  Tree : List scriptTree

/-- The coerced parameter record (`Param` in `gensource.go`). -/
structure Param where
  Value : String
  Type_ : String
  Name : String
deriving DecidableEq, Repr

/-- The compiler state `Source`.  The fixed `CRCTable` is baked into
`crcStr`; `HashStrings` (Go `map[uint64]int`) is an association list. -/
structure Source where
  Linked : String → Bool
  Strings : List String
  HashStrings : List (Nat × Nat)
  Header : Header
  Counter : Nat
  Funcs : String

/-- The fresh compiler state `GenSource` builds (`gensource.go`
lines 267-272). -/
def newSource (header : Header) : Source :=
  { Linked := fun _ => false, Strings := [], HashStrings := [],
    Header := header, Counter := 0, Funcs := "" }

/-- `Source.FindStrConst` (`gensource.go` lines 53-65): hash the value;
on a miss append it and record hash -> index; return `STR<index>`. -/
def FindStrConst (src : Source) (value : String) : String × Source :=
  let crc := crcStr value
  match src.HashStrings.lookup crc with
  | some id => ("STR" ++ toString id, src)
  | none =>
    let id := src.Strings.length
    ("STR" ++ toString id,
      { src with HashStrings := (crc, id) :: src.HashStrings,
                 Strings := src.Strings ++ [value] })

/-- Interning a whole list of strings in order (a sequence of
`FindStrConst` calls), returning the references in call order. -/
def internAll (src : Source) : List String → List String × Source
  | [] => ([], src)
  | s :: rest =>
    let (r, src') := FindStrConst src s
    let (rs, src'') := internAll src' rest
    (r :: rs, src'')

/-! ## Value coercion: `Source.ScriptValues` (`gensource.go` lines 67-144) -/

/-- Modelled from the spec: the name of the special "raw source"
definition kind (`SourceCode`, a constant declared outside the provided
sources); only comparisons against it matter. -/
def SourceCode : String := "source-code"

/-- Modelled from the spec: the reserved language code whose table holds
the definition-default predefined variables (`LangDefCode`, declared
outside the provided sources). -/
def LangDefCode : String := "en"

/-- Modelled from the spec: `lib.IdName` (in the `eonza/lib` package, not
among the provided sources) derives the emitted function identifier from
the definition name; the spec says memoization and call sites are keyed
by the definition's name, so the identifier is the name itself. -/
def IdName (s : String) : String := s

/-- Compilation errors.  `fieldRequired` models the localized `errfield`
message, which carries the field title and the owning definition's title
(both passed through `es.ReplaceVars`, modelled as the already-localized
strings themselves per the spec).  `panicNilType` models the Go runtime
panic of `reflect.TypeOf(nil).Kind()`; `panicIndex` the out-of-range
panic of `values[0]`/`values[1]`; `outOfFuel` stands for the
non-termination a cyclic definition registry would cause in Go. -/
inductive CompErr where
  | fieldRequired (field : String) (title : String)
  | scriptNotFound (name : String)
  | panicNilType
  | panicIndex
  | outOfFuel
deriving DecidableEq, Repr

/-- JSON string escaping as Go's `encoding/json` performs it (with its
default HTML escaping of `<`, `>`, `&`). -/
def jsonEscapeChar (c : Char) : String :=
  if c = '"' then "\\\""
  else if c = '\\' then "\\\\"
  else if c = '\n' then "\\n"
  else if c = '\r' then "\\r"
  else if c = '\t' then "\\t"
  else if c = '<' then "\\u003c"
  else if c = '>' then "\\u003e"
  else if c = '&' then "\\u0026"
  else if c.toNat < 0x20 then
    "\\u00" ++ (if c.toNat / 16 = 1 then "1" else "0")
      ++ String.singleton (Nat.digitChar (c.toNat % 16))
  else String.singleton c

/-- `json.Marshal` of a non-nil `[]string` (the compact JSON array the
List coercion interns). -/
def jsonMarshalStrings (items : List String) : String :=
  "[" ++ String.intercalate ","
      (items.map (fun s =>
        "\"" ++ String.join (s.data.map jsonEscapeChar) ++ "\""))
    ++ "]"

/-- The trimmed `fmt.Sprint` of a node's raw value for one parameter
(`gensource.go` lines 80-83); empty when the key is absent (Go's
`val == nil`). -/
def nodeValue (node : scriptTree) (name : String) : String :=
  match node.Values name with
  | some v => goTrimSpace (sprint v)
  | none => ""

/-- Coercion of one parameter: the body of the `for _, par := range
script.Params` loop of `ScriptValues`, switching on `par.Type`. -/
def coerceParam (src : Source) (script : Script) (node : scriptTree)
    (par : ParamDef) : Except CompErr (Param × Source) :=
  let val? := node.Values par.Name
  let value := nodeValue node par.Name
  match par.Type_ with
  | .PCheckbox =>
    .ok ({ Value := if value = "false" ∨ value = "0" ∨ value.length = 0
              then "false" else "true",
           Type_ := "bool", Name := par.Name }, src)
  | .PTextarea | .PSingleText =>
    if value.length = 0 ∧ par.Options.Required then
      .error (.fieldRequired par.Title script.Settings.Title)
    else
      let value := if value.length = 0 then par.Options.Default else value
      if script.Settings.Name ≠ SourceCode then
        let isMacro := goContainsRune value VarChar
        let fs := FindStrConst src value
        .ok ({ Value := if isMacro then "Macro(" ++ fs.1 ++ ")" else fs.1,
               Type_ := "str", Name := par.Name }, fs.2)
      else
        .ok ({ Value := value, Type_ := "str", Name := par.Name }, src)
  | .PSelect =>
    if par.Options.Type_.length > 0 then
      .ok ({ Value := value, Type_ := par.Options.Type_,
             Name := par.Name }, src)
    else
      let fs := FindStrConst src value
      .ok ({ Value := fs.1, Type_ := "str", Name := par.Name }, fs.2)
  | .PNumber =>
    if value.length = 0 then
      if par.Options.Required then
        .error (.fieldRequired par.Title script.Settings.Title)
      else
        .ok ({ Value := par.Options.Default, Type_ := "int",
               Name := par.Name }, src)
    else
      .ok ({ Value := value, Type_ := "int", Name := par.Name }, src)
  | .PList =>
    match val? with
    | none =>
      -- Go evaluates `reflect.TypeOf(val).Kind()` with `val == nil`:
      -- `reflect.TypeOf(nil)` is a nil `reflect.Type` and the `Kind()`
      -- call panics with a nil-pointer dereference.
      .error .panicNilType
    | some v =>
      match v with
      | .list items =>
        if items.length > 0 then
          let fs := FindStrConst src (jsonMarshalStrings items)
          .ok ({ Value := fs.1, Type_ := "str", Name := par.Name }, fs.2)
        else if par.Options.Required then
          .error (.fieldRequired par.Title script.Settings.Title)
        else
          let fs := FindStrConst src "[]"
          .ok ({ Value := fs.1, Type_ := "str", Name := par.Name }, fs.2)
      | _ =>
        -- a non-slice value: `reflect.TypeOf(val).Kind() == reflect.Slice`
        -- is false, so Go takes the same else branch as an empty slice
        if par.Options.Required then
          .error (.fieldRequired par.Title script.Settings.Title)
        else
          let fs := FindStrConst src "[]"
          .ok ({ Value := fs.1, Type_ := "str", Name := par.Name }, fs.2)

/-- The parameter loop of `ScriptValues`, threading the interning state
through the declared parameters in order. -/
def coerceParams (script : Script) (node : scriptTree) :
    Source → List ParamDef → Except CompErr (List Param × Source)
  | src, [] => .ok ([], src)
  | src, par :: rest => do
    let (p, src') ← coerceParam src script node par
    let (ps, src'') ← coerceParams script node src' rest
    .ok (p :: ps, src'')

/-- `Source.ScriptValues` (`gensource.go` lines 67-144): coerce every
declared parameter of `script` against the node's raw values. -/
def ScriptValues (src : Source) (script : Script) (node : scriptTree) :
    Except CompErr (List Param × Source) :=
  coerceParams script node src script.Params

/-- Projection used to state concrete facts about a coercion result
without comparing the function-valued fields of `Source`: keeps the
coerced parameters and the interned string pool. -/
def resultSig (r : Except CompErr (List Param × Source)) :
    Except CompErr (List Param × List String) :=
  r.map (fun p => (p.1, p.2.Strings))

/-! ## Predefined variables: `Source.Predefined` (`gensource.go` lines 146-170) -/

/-- Map-insert on an association list: overwrite the entry with the same
key, else append (the semantics of `predef[name] = value` on a Go map). -/
def assocSet (l : List (String × String)) (kv : String × String) :
    List (String × String) :=
  if l.any (fun e => e.1 = kv.1) then
    l.map (fun e => if e.1 = kv.1 then kv else e)
  else l ++ [kv]

/-- The `predef` map built by `Predefined`: the default-language table,
overlaid with the current language's table when that differs from the
default, keys starting with `_` excluded from both. -/
def mergedPredef (script : Script) (lang : String) :
    List (String × String) :=
  let base := ((script.Langs LangDefCode).filter
      (fun kv => ¬ goHasPrefix kv.1 "_")).foldl assocSet []
  if lang ≠ LangDefCode then
    ((script.Langs lang).filter
        (fun kv => ¬ goHasPrefix kv.1 "_")).foldl assocSet base
  else base

/-- `yaml.Marshal` of a string map (gopkg.in/yaml.v2), modelled as one
`key: value` line per entry (`\x7b\x7d\n` for the empty map); the
library's key ordering and value quoting are abstracted to the
association list's order and plain values. -/
def yamlMarshal (l : List (String × String)) : String :=
  if l.isEmpty then "\x7b\x7d\n"
  else String.join (l.map (fun kv => kv.1 ++ ": " ++ kv.2 ++ "\n"))

/-- `Source.Predefined` (`gensource.go` lines 146-170): when the
default-language table is non-empty, serialize the merged filtered table
and intern it inside a `SetYamlVars` call; otherwise return nothing.
The `yaml.Marshal` error path never fires for string maps, so the Go
`(string, error)` pair collapses to the string. -/
def Predefined (src : Source) (script : Script) : String × Source :=
  if (script.Langs LangDefCode).length > 0 then
    let data := yamlMarshal (mergedPredef script src.Header.Lang)
    let fs := FindStrConst src data
    ("SetYamlVars(" ++ fs.1 ++ ")\r\n", fs.2)
  else ("", src)

/-! ## The tree compiler: `Source.Script` / `Source.Tree`
(`gensource.go` lines 36-51 and 172-251) -/

/-- `strings.TrimRight(code, "\r\n")`. -/
def trimRightCRLF (s : String) : String :=
  String.mk ((s.data.reverse.dropWhile
      (fun c => c = '\r' ∨ c = '\n')).reverse)

/-- `Source.Tree` (`gensource.go` lines 36-51) abstracted over the
per-node compile step: skip disabled children, concatenate the emitted
call statements of the rest, threading the compiler state. -/
def TreeGo (step : Source → scriptTree → Except CompErr (String × Source)) :
    Source → List scriptTree → Except CompErr (String × Source)
  | src, [] => .ok ("", src)
  | src, child :: rest =>
    if child.Disable then TreeGo step src rest
    else do
      let (tmp, src') ← step src child
      let (body, src'') ← TreeGo step src' rest
      .ok (tmp ++ body, src'')

/-- `Source.Script` (`gensource.go` lines 172-251).  `reg` is the
`getScript` registry.  Go's recursion into children and into a
definition's own internal tree is bounded here by `fuel` (a cyclic
registry would not terminate in Go either); every claim is settled at a
fuel large enough for its tree.  `values[0]`/`values[1]` indexing in the
raw-source branch panics in Go when fewer than two values exist, modelled
by `panicIndex`. -/
def Source.Script (reg : String → Option Script) :
    Nat → Source → scriptTree → Except CompErr (String × Source)
  | 0, _, _ => .error .outOfFuel
  | fuel + 1, src, node =>
    match reg node.Name with
    | none => .error (.scriptNotFound node.Name)
    | some script =>
      let idname := IdName script.Settings.Name
      match ScriptValues src script node with
      | .error e => .error e
      | .ok (values, src) =>
        if ¬ src.Linked idname ∨ script.Settings.Name = SourceCode then
          let src := { src with
            Linked := fun m => if m = idname then true else src.Linked m }
          match TreeGo (fun s t => Source.Script reg fuel s t)
              src node.Children with
          | .error e => .error e
          | .ok (tmp, src) =>
            let pd := Predefined src script
            let predef := pd.1
            let src := pd.2
            if script.Settings.Name = SourceCode ∧ values.length < 2 then
              .error .panicIndex
            else
              let code := if script.Settings.Name = SourceCode then
                  ((values.get? 1).map Param.Value).getD ""
                else script.Code
              let code := goReplaceAll code "%body%" tmp
              if script.Settings.Name = SourceCode
                  ∧ ((values.get? 0).map Param.Value).getD "" = "true" then
                .ok ("", { src with Funcs := src.Funcs ++ code ++ "\r\n" })
              else
                let idname :=
                  if script.Settings.Name = SourceCode then
                    idname ++ toString src.Counter
                  else idname
                let src :=
                  if script.Settings.Name = SourceCode then
                    { src with Counter := src.Counter + 1 }
                  else src
                let code := trimRightCRLF code
                let paramsDecl :=
                  if script.Settings.Name ≠ SourceCode then
                    values.map (fun par => par.Type_ ++ " " ++ par.Name)
                  else []
                let parNames :=
                  if script.Settings.Name ≠ SourceCode then
                    values.foldl (fun acc par => acc ++ "," ++ par.Name) ""
                  else ""
                let varsList :=
                  if script.Settings.Name ≠ SourceCode then
                    values.map (fun par =>
                      "\"" ++ par.Name ++ "\", " ++ par.Name)
                  else []
                match
                  (if script.Settings.Name ≠ SourceCode
                      ∧ script.Tree.length > 0 then
                    let code := code ++ "\r\ninit("
                      ++ String.intercalate "," varsList ++ ")\r\n" ++ predef
                    match TreeGo (fun s t => Source.Script reg fuel s t)
                        src script.Tree with
                    | .error e => .error e
                    | .ok (tmp2, src') =>
                      .ok (code ++ "\r\n" ++ tmp2 ++ "\r\ndeinit()", src')
                  else .ok (code, src) : Except CompErr (String × Source))
                with
                | .error e => .error e
                | .ok (code, src) =>
                  let pre :=
                    if script.Settings.LogLevel < LOG_INHERIT then
                      "int prevLog = SetLogLevel("
                        ++ toString script.Settings.LogLevel ++ ")\r\n"
                    else ""
                  let suf :=
                    if script.Settings.LogLevel < LOG_INHERIT then
                      "\r\nSetLogLevel(prevLog)"
                    else ""
                  let initcmd := "initcmd(`" ++ script.Settings.Name ++ "`"
                    ++ parNames ++ ")\r\n"
                  let code := initcmd ++ code
                  let src := { src with Funcs := src.Funcs
                    ++ "func " ++ idname ++ "("
                    ++ String.intercalate "," paramsDecl ++ ") \x7b\r\n"
                    ++ pre ++ code ++ suf ++ "\r\n\x7d\r\n" }
                  let callParams :=
                    if script.Settings.Name ≠ SourceCode then
                      values.map Param.Value
                    else []
                  .ok ("   " ++ idname ++ "("
                    ++ String.intercalate "," callParams ++ ")\r\n", src)
        else
          let callParams :=
            if script.Settings.Name ≠ SourceCode then
              values.map Param.Value
            else []
          .ok ("   " ++ idname ++ "("
            ++ String.intercalate "," callParams ++ ")\r\n", src)

/-- `Source.Tree` (`gensource.go` lines 36-51): compile a node list at
the given fuel. -/
def Source.Tree (reg : String → Option Eonza.Script) (fuel : Nat) :
    Source → List scriptTree → Except CompErr (String × Source) :=
  TreeGo (fun s t => Source.Script reg fuel s t)

/-! ## Top level: `ValToStr` and `GenSource` (`gensource.go` lines 253-315) -/

/-- `ValToStr` (`gensource.go` lines 253-263): raw-delimited literal for
strings free of backtick/`%`/`$`, escaped double-quoted literal
otherwise. -/
def ValToStr (input : String) : String :=
  if goContainsAny input "`%$" then
    let out := goReplaceAll input "\\" "\\\\"
    "\"" ++ goReplaceAll out "\"" "\\\"" ++ "\""
  else "`" ++ input ++ "`"

/-- The fixed enumeration block appended to every generated program
(`gensource.go` lines 310-312), byte for byte including the tab of the
raw-string literal's second line. -/
def iotaBlock : String :=
  "const IOTA \x7b LOG_DISABLE\n\tLOG_ERROR LOG_WARN LOG_FORM LOG_INFO LOG_DEBUG \x7d\n"

/-- The identifiers declared by the emitted enumeration block, in
declaration order (the IOTA block assigns 0, 1, 2, ... in this order). -/
def splitSpacesAux : List Char → List Char → List String
  | [], acc => [String.mk acc.reverse]
  | c :: rest, acc =>
    if c = ' ' ∨ c = '\n' ∨ c = '\t' then
      String.mk acc.reverse :: splitSpacesAux rest []
    else splitSpacesAux rest (c :: acc)

/-- The whitespace-separated words of a string. -/
def splitSpaces (s : String) : List String := splitSpacesAux s.data []

def iotaIdents : List String :=
  (splitSpaces iotaBlock).filter (fun w => goHasPrefix w "LOG_")

/-- The constant block emitted for the interned strings
(`gensource.go` lines 302-309), one `STR<i> = <literal>` row per pool
entry in first-seen order. -/
def constBlock (strings : List String) : String :=
  if strings.length > 0 then
    "const \x7b\r\n"
      ++ String.join ((List.range strings.length).zipWith
          (fun i val => "STR" ++ toString i ++ " = " ++ ValToStr val ++ "\r\n")
          strings)
      ++ "\x7d\r\n"
  else ""

/-- `GenSource` (`gensource.go` lines 265-315).  `storageLogLevel` is the
ambient `storage.Settings.LogLevel` global; `reg` and `fuel` feed the
tree compiler as in `Source.Script`. -/
def GenSource (reg : String → Option Script) (storageLogLevel : Int)
    (script : Script) (header : Header) (fuel : Nat) :
    Except CompErr String :=
  let src := newSource header
  match ScriptValues src script scriptTree.empty with
  | .error e => .error e
  | .ok (values, src) =>
    let params := values.foldl
      (fun acc par => acc ++ par.Type_ ++ " " ++ par.Name ++ " = "
        ++ (if par.Type_ = "str" then ValToStr par.Value else par.Value)
        ++ "\r\n") ""
    let level := if script.Settings.LogLevel < LOG_INHERIT then
        script.Settings.LogLevel
      else storageLogLevel
    let params := params ++ "SetLogLevel(" ++ toString level
      ++ ")\r\ninit()\r\n"
    let code := goTrimSpace (goReplaceAll script.Code "%body%" "")
    let code := if code.length > 0 then code ++ "\r\n" else code
    let (predef, src) := Predefined src script
    let code := predef ++ code
    match Source.Tree reg fuel src script.Tree with
    | .error e => .error e
    | .ok (body, src) =>
      let constStr := constBlock src.Strings ++ iotaBlock
      .ok (constStr ++ src.Funcs ++ "\r\nrun \x7b\r\n" ++ params
        ++ code ++ body ++ "\r\ndeinit()\x7d")

/-! ## Concrete fixtures for the claims about `ScriptValues` -/

/-- A required Number parameter with a non-empty declared default. -/
def parNumReqDef : ParamDef :=
  { Name := "n", Title := "F", Type_ := .PNumber,
    Options := { Required := true, Default := "42", Type_ := "" } }

/-- A definition whose single parameter is `parNumReqDef`. -/
def scriptNumReq : Script :=
  { Settings := { Name := "sc", Title := "S", LogLevel := LOG_INHERIT },
    Params := [parNumReqDef], Code := "", Langs := fun _ => [], Tree := [] }

/-- A required Select parameter with no passthrough type. -/
def parSelReq : ParamDef :=
  { Name := "s", Title := "T", Type_ := .PSelect,
    Options := { Required := true, Default := "", Type_ := "" } }

/-- An optional List parameter, a required List parameter, and nodes
supplying a two-element list, an empty list, or nothing. -/
def parListOpt : ParamDef :=
  { Name := "q", Title := "Q", Type_ := .PList,
    Options := { Required := false, Default := "", Type_ := "" } }

def parListReq : ParamDef :=
  { Name := "q", Title := "Q", Type_ := .PList,
    Options := { Required := true, Default := "", Type_ := "" } }

def scriptListOpt : Script :=
  { Settings := { Name := "sl", Title := "SL", LogLevel := LOG_INHERIT },
    Params := [parListOpt], Code := "", Langs := fun _ => [], Tree := [] }

def scriptListReq : Script :=
  { Settings := { Name := "sl", Title := "SL", LogLevel := LOG_INHERIT },
    Params := [parListReq], Code := "", Langs := fun _ => [], Tree := [] }

def nodeAB : scriptTree :=
  { Name := "", Disable := false, Children := [],
    Values := fun m => if m = "q" then some (.list ["a", "b"]) else none }

def nodeEmptyList : scriptTree :=
  { Name := "", Disable := false, Children := [],
    Values := fun m => if m = "q" then some (.list []) else none }

/-- A definition whose default-language table holds only a
reserved-prefix key: the merged filtered table is empty, yet the raw
default-language table is non-empty. -/
def scriptC8 : Script :=
  { Settings := { Name := "s8", Title := "S8", LogLevel := LOG_INHERIT },
    Params := [], Code := "",
    Langs := fun l => if l = LangDefCode then [("_x", "1")] else [],
    Tree := [] }

/-- A minimal root definition: no parameters, no tree, empty code,
inherited log level. -/
def minScript : Script :=
  { Settings := { Name := "min", Title := "Min", LogLevel := LOG_INHERIT },
    Params := [], Code := "", Langs := fun _ => [], Tree := [] }

/-! ## C2: per-definition memoization -/

/-- A parameterless definition with inherited log level, empty language
tables and no internal tree, registered under its own name. -/
def simpleScript (n title c : String) : Script :=
  { Settings := { Name := n, Title := title, LogLevel := LOG_INHERIT },
    Params := [], Code := c, Langs := fun _ => [], Tree := [] }

/-- A registry holding exactly `simpleScript n title c`. -/
def simpleReg (n title c : String) : String → Option Script :=
  fun m => if m = n then some (simpleScript n title c) else none

/-- An enabled, childless node invoking `n`. -/
def simpleNode (n : String) (vals : String → Option RawVal) : scriptTree :=
  { Name := n, Disable := false, Values := vals, Children := [] }

/-- The call-site statement emitted for each node referencing `n`. -/
def callStmt (n : String) : String := "   " ++ IdName n ++ "()\r\n"

/-- The single function block emitted for the definition `n` with code
`c`. -/
def funcBlock (n c : String) : String :=
  "func " ++ IdName n ++ "() \x7b\r\n" ++ ("initcmd(`" ++ n ++ "`)\r\n"
    ++ (trimRightCRLF (goReplaceAll c "%body%" "") ++ "\r\n\x7d\r\n"))

/-- Interning a list of strings whose hashes are fresh for the current
pool and pairwise distinct yields consecutive indices starting at the
current pool size, in call order. -/
theorem internAll_fresh (l : List String) (src : Source)
    (hnotin : ∀ s ∈ l, src.HashStrings.lookup (crcStr s) = none)
    (hdist : (l.map crcStr).Nodup) :
    (internAll src l).1 =
      (List.range l.length).map
        (fun i => "STR" ++ toString (src.Strings.length + i)) := by
  induction l generalizing src with
  | nil => simp [internAll]
  | cons s rest ih =>
    have hs : src.HashStrings.lookup (crcStr s) = none :=
      hnotin s (List.mem_cons_self s rest)
    have hnotin' : ∀ t ∈ rest,
        ((crcStr s, src.Strings.length) :: src.HashStrings).lookup (crcStr t)
          = none := by
      intro t ht
      have hne : crcStr t ≠ crcStr s := by
        intro he
        have : crcStr s ∈ rest.map crcStr := he ▸ List.mem_map_of_mem crcStr ht
        exact (List.nodup_cons.mp (by simpa using hdist)).1 this
      have hbeq : (crcStr t == crcStr s) = false := by simpa using hne
      simp [List.lookup, hbeq, hnotin t (List.mem_cons_of_mem s ht)]
    have hdist' : (rest.map crcStr).Nodup :=
      (List.nodup_cons.mp (by simpa using hdist)).2
    have := ih
      ({ src with
          HashStrings := (crcStr s, src.Strings.length) :: src.HashStrings,
          Strings := src.Strings ++ [s] }) hnotin' hdist'
    simp only [internAll, FindStrConst, hs] at this ⊢
    simp only [List.length_cons, List.range_succ_eq_map, List.map_cons,
      List.map_map, this]
    congr 1
    apply List.map_congr_left
    intro i _
    simp only [Function.comp_apply, List.length_append, List.length_cons,
      List.length_nil, Nat.add_zero, Nat.add_assoc, Nat.add_comm 1 i]

/-- C1: string interning is content-addressed and order-stable: a second
`FindStrConst` call with a byte-identical string returns the same
reference token, and interning a list of strings with pairwise distinct
CRC64 hashes into a fresh pool yields the references STR0, STR1, ... in
first-seen insertion order. -/
theorem c1_intern_content_addressed (src : Source) (s : String)
    (h : Header) (l : List String) (hdist : (l.map crcStr).Nodup) :
    (FindStrConst (FindStrConst src s).2 s).1 = (FindStrConst src s).1
    ∧ (internAll (newSource h) l).1 =
        (List.range l.length).map (fun i => "STR" ++ toString i) := by
  constructor
  · unfold FindStrConst
    cases hc : src.HashStrings.lookup (crcStr s) with
    | some id => simp [hc]
    | none => simp [hc, List.lookup]
  · have := internAll_fresh l (newSource h)
      (by intro t _; simp [newSource, List.lookup]) hdist
    simpa [newSource] using this

/-- Witness for C1 at concrete inputs: the hashes of "a", "b", "c" are
pairwise distinct, and the theorem's conclusion holds there. -/
theorem c1_intern_content_addressed_witness :
    ((["a", "b", "c"].map crcStr).Nodup)
    ∧ ((FindStrConst (FindStrConst (newSource ⟨"en"⟩) "x").2 "x").1
          = (FindStrConst (newSource ⟨"en"⟩) "x").1
        ∧ (internAll (newSource ⟨"en"⟩) ["a", "b", "c"]).1 =
            (List.range (["a", "b", "c"] : List String).length).map
              (fun i => "STR" ++ toString i)) :=
  ⟨by decide,
    c1_intern_content_addressed (newSource ⟨"en"⟩) "x" ⟨"en"⟩
      ["a", "b", "c"] (by decide)⟩

theorem string_length_eq_zero_iff (s : String) :
    s.length = 0 ↔ s = "" := by
  cases s with
  | mk data => simp [String.length, String.ext_iff]

/-- C5: macro expansion resolves nested placeholders recursively: with the
top scope binding A to "x#B#y" and B to "mid", expanding "#A#" returns
"xmidy" - the found name's stored value is recursively expanded and the
expanded result is spliced into the output. -/
theorem c5_nested_expansion : Macro scopeNested "#A#" = .ok "xmidy" := by
  decide

/-- C6: cycle and depth guards: a direct self-reference (A -> "#A#") and an
indirect cycle (A -> "#B#", B -> "#A#") both fail with VarLoop naming "A",
and a 17-link chain fails with VarTooDeep at the moment a found name would
be pushed onto a stack already holding 16 entries. -/
theorem c6_loop_and_depth_guards :
    Macro scopeSelf "#A#" = .error (.varLoop "A")
    ∧ Macro scopeMutual "#A#" = .error (.varLoop "A")
    ∧ Macro scopeDeep "#A0#" = .error .varTooDeep := by
  refine ⟨by decide, by decide, by decide⟩

/-- C7: unresolved placeholder passthrough: with an empty top scope
"#missing#" comes back unchanged, an input ending mid-name emits the
partial sigil+name literally, and the closing sigil of an unresolved name
is re-examined as the start of the next placeholder (so "#missing#B#"
with only B bound expands to "#missingv"). -/
theorem c7_passthrough :
    Macro (fun _ => none) "#missing#" = .ok "#missing#"
    ∧ Macro (fun _ => none) "#tail" = .ok "#tail"
    ∧ Macro scopeOne "#missing#B#" = .ok "#missingv" := by
  refine ⟨by decide, by decide, by decide⟩

/-- C3 (amended): for a Textarea, SingleText or Number parameter,
`ScriptValues` fails with FieldRequired (naming the field title and the
definition title) exactly when the parameter is required and the trimmed
supplied value is empty, regardless of the declared default; the default
is substituted only when the parameter is NOT required and the value is
empty (shown here for Number, where the default is returned verbatim). -/
theorem c3_required_field (src : Source) (sett : ScriptSettings)
    (co : String) (langs : String → List (String × String))
    (tr : List scriptTree) (par : ParamDef) (node : scriptTree)
    (hk : par.Type_ = PType.PTextarea ∨ par.Type_ = PType.PSingleText
      ∨ par.Type_ = PType.PNumber) :
    (ScriptValues src
        { Settings := sett, Params := [par], Code := co,
          Langs := langs, Tree := tr } node
      = .error (.fieldRequired par.Title sett.Title)
      ↔ (par.Options.Required = true ∧ nodeValue node par.Name = ""))
    ∧ ((par.Options.Required = false ∧ nodeValue node par.Name = ""
        ∧ par.Type_ = PType.PNumber) →
      ScriptValues src
          { Settings := sett, Params := [par], Code := co,
            Langs := langs, Tree := tr } node
        = .ok ([⟨par.Options.Default, "int", par.Name⟩], src)) := by
  have hlen := string_length_eq_zero_iff (nodeValue node par.Name)
  constructor
  · by_cases hv : nodeValue node par.Name = ""
    · cases hreq : par.Options.Required with
      | true =>
        rcases hk with h | h | h <;>
          simp [ScriptValues, coerceParams, coerceParam, h, hreq,
            hlen.mpr hv, hv, Bind.bind, Except.bind]
      | false =>
        rcases hk with h | h | h <;>
          by_cases hsc : sett.Name = SourceCode <;>
          simp [ScriptValues, coerceParams, coerceParam, h, hreq,
            hlen.mpr hv, hv, hsc, Bind.bind, Except.bind]
    · have hl : ¬ (nodeValue node par.Name).length = 0 := fun hh =>
        hv (hlen.mp hh)
      rcases hk with h | h | h <;>
        by_cases hsc : sett.Name = SourceCode <;>
        simp [ScriptValues, coerceParams, coerceParam, h, hl, hv, hsc,
          Bind.bind, Except.bind]
  · rintro ⟨hreq, hv, hnum⟩
    simp [ScriptValues, coerceParams, coerceParam, hnum, hreq,
      hlen.mpr hv, Bind.bind, Except.bind]

/-- C3 counterexample to the claim as stated: a required Number parameter
with the non-empty declared default "42" and no supplied value.  The
claim says coercion succeeds using the default; the code fails with
FieldRequired regardless of the default. -/
theorem c3_counterexample :
    resultSig (ScriptValues (newSource ⟨"en"⟩) scriptNumReq scriptTree.empty)
      = .error (.fieldRequired "F" "S") := by
  decide

/-- Witness for C3 at a concrete input: the hypothesis holds for the
required Number parameter and the amended conclusion holds there. -/
theorem c3_required_field_witness :
    (parNumReqDef.Type_ = PType.PTextarea
      ∨ parNumReqDef.Type_ = PType.PSingleText
      ∨ parNumReqDef.Type_ = PType.PNumber)
    ∧ ((ScriptValues (newSource ⟨"en"⟩) scriptNumReq scriptTree.empty
        = .error (.fieldRequired parNumReqDef.Title "S")
        ↔ (parNumReqDef.Options.Required = true
            ∧ nodeValue scriptTree.empty parNumReqDef.Name = ""))
      ∧ ((parNumReqDef.Options.Required = false
          ∧ nodeValue scriptTree.empty parNumReqDef.Name = ""
          ∧ parNumReqDef.Type_ = PType.PNumber) →
        ScriptValues (newSource ⟨"en"⟩) scriptNumReq scriptTree.empty
          = .ok ([⟨parNumReqDef.Options.Default, "int", parNumReqDef.Name⟩],
              newSource ⟨"en"⟩))) :=
  ⟨by decide,
    c3_required_field (newSource ⟨"en"⟩) ⟨"sc", "S", LOG_INHERIT⟩ ""
      (fun _ => []) [] parNumReqDef scriptTree.empty (by decide)⟩

/-- C10: a Select parameter never fails with FieldRequired, even when
required with no supplied value: with a declared raw passthrough type the
(trimmed, possibly empty) value is passed through unconverted with that
type, otherwise the (trimmed, possibly empty) value is interned as a
string constant. -/
theorem c10_select_never_required (src : Source) (sett : ScriptSettings)
    (co : String) (langs : String → List (String × String))
    (tr : List scriptTree) (par : ParamDef) (node : scriptTree)
    (hk : par.Type_ = PType.PSelect) :
    (ScriptValues src
        { Settings := sett, Params := [par], Code := co,
          Langs := langs, Tree := tr } node
      = (if par.Options.Type_.length > 0 then
          .ok ([⟨nodeValue node par.Name, par.Options.Type_, par.Name⟩],
            src)
        else
          .ok ([⟨(FindStrConst src (nodeValue node par.Name)).1, "str",
              par.Name⟩],
            (FindStrConst src (nodeValue node par.Name)).2)))
    ∧ (ScriptValues src
        { Settings := sett, Params := [par], Code := co,
          Langs := langs, Tree := tr } node).isOk = true := by
  have h1 : ScriptValues src
      { Settings := sett, Params := [par], Code := co,
        Langs := langs, Tree := tr } node
      = (if par.Options.Type_.length > 0 then
          .ok ([⟨nodeValue node par.Name, par.Options.Type_, par.Name⟩],
            src)
        else
          .ok ([⟨(FindStrConst src (nodeValue node par.Name)).1, "str",
              par.Name⟩],
            (FindStrConst src (nodeValue node par.Name)).2)) := by
    simp only [ScriptValues, coerceParams, coerceParam, hk]
    split <;> simp [Bind.bind, Except.bind]
  refine ⟨h1, ?_⟩
  rw [h1]
  split <;> rfl

/-- Witness for C10 at a concrete input: a required Select parameter with
no supplied value still coerces successfully (interning the empty
string). -/
theorem c10_select_never_required_witness :
    parSelReq.Type_ = PType.PSelect
    ∧ ((ScriptValues (newSource ⟨"en"⟩)
          { Settings := ⟨"sc", "S", LOG_INHERIT⟩, Params := [parSelReq],
            Code := "", Langs := fun _ => [], Tree := [] } scriptTree.empty
        = (if parSelReq.Options.Type_.length > 0 then
            .ok ([⟨nodeValue scriptTree.empty parSelReq.Name,
                parSelReq.Options.Type_, parSelReq.Name⟩], newSource ⟨"en"⟩)
          else
            .ok ([⟨(FindStrConst (newSource ⟨"en"⟩)
                  (nodeValue scriptTree.empty parSelReq.Name)).1, "str",
                parSelReq.Name⟩],
              (FindStrConst (newSource ⟨"en"⟩)
                  (nodeValue scriptTree.empty parSelReq.Name)).2)))
      ∧ (ScriptValues (newSource ⟨"en"⟩)
          { Settings := ⟨"sc", "S", LOG_INHERIT⟩, Params := [parSelReq],
            Code := "", Langs := fun _ => [], Tree := [] }
          scriptTree.empty).isOk = true) :=
  ⟨by decide,
    c10_select_never_required (newSource ⟨"en"⟩) ⟨"sc", "S", LOG_INHERIT⟩ ""
      (fun _ => []) [] parSelReq scriptTree.empty (by decide)⟩

/-- C4: List coercion on empty input.  With no value supplied at all
(Go `val == nil`) the code does NOT succeed with "[]": it dereferences
the nil `reflect.Type` returned by `reflect.TypeOf(nil)` and panics,
even with `required=false`.  The other parts of the claim hold: a
non-empty sequence interns its compact JSON serialization, an explicit
empty sequence interns "[]", and the required-check fires in the empty
case when `required=true`. -/
theorem c4_list_nil_value_panics :
    resultSig (ScriptValues (newSource ⟨"en"⟩) scriptListOpt
        scriptTree.empty)
      = .error .panicNilType
    ∧ resultSig (ScriptValues (newSource ⟨"en"⟩) scriptListOpt nodeAB)
        = .ok ([⟨"STR0", "str", "q"⟩], ["[\"a\",\"b\"]"])
    ∧ resultSig (ScriptValues (newSource ⟨"en"⟩) scriptListOpt
          nodeEmptyList)
        = .ok ([⟨"STR0", "str", "q"⟩], ["[]"])
    ∧ resultSig (ScriptValues (newSource ⟨"en"⟩) scriptListReq
          nodeEmptyList)
        = .error (.fieldRequired "Q" "SL") := by
  refine ⟨by decide, by decide, by decide, by decide⟩

/-- A string starting with a non-empty literal is non-empty. -/
theorem string_append_ne_empty (s t : String) (hs : s ≠ "") :
    s ++ t ≠ "" := by
  intro he
  apply hs
  have hl := congrArg String.length he
  rw [String.length_append] at hl
  have h0 : ("" : String).length = 0 := rfl
  exact (string_length_eq_zero_iff s).mp (by omega)

/-- C8 counterexample to the claim as stated: with a default-language
table holding only the reserved-prefix key `_x`, the merged table is
empty, yet `Predefined` still returns a `SetYamlVars` statement (loading
the serialization of the empty map). -/
theorem c8_counterexample :
    mergedPredef scriptC8 "en" = []
    ∧ (Predefined (newSource ⟨"en"⟩) scriptC8).1 = "SetYamlVars(STR0)\r\n"
    ∧ ¬ (Predefined (newSource ⟨"en"⟩) scriptC8).1 = "" := by
  refine ⟨by decide, by decide, by decide⟩

/-- C8 (amended): `Predefined` returns a statement iff the definition's
default-language table is non-empty BEFORE reserved-key filtering; the
emptiness of the merged filtered table plays no role (and a non-empty
current-language table alone produces nothing). -/
theorem c8_statement_iff_deflang_nonempty (src : Source)
    (script : Script) :
    (Predefined src script).1 ≠ "" ↔ script.Langs LangDefCode ≠ [] := by
  unfold Predefined
  cases h : script.Langs LangDefCode with
  | nil => simp [h]
  | cons kv rest =>
    simp only [h, List.length_cons, Nat.succ_pos, if_pos, gt_iff_lt,
      Nat.zero_lt_succ, ne_eq, reduceCtorEq, not_false_eq_true, iff_true]
    exact string_append_ne_empty _ _
      (string_append_ne_empty "SetYamlVars(" _ (by decide))

/-- C9: the generated program does NOT declare exactly the five runtime
log severities.  A minimal compilation emits, right after the (here
absent) constant block, the fixed `const IOTA` enumeration — and that
block declares SIX identifiers, inserting `LOG_FORM` between `LOG_WARN`
and `LOG_INFO`.  Under the block's 0-based `IOTA` numbering `LOG_INFO`
sits at position 4 and `LOG_DEBUG` at position 5, while the runtime
numbering of `embedded.go` used by `LogOutput`/`SetLogLevel` has
`LOG_INFO = 3`, `LOG_DEBUG = 4` and no `LOG_FORM` at all. -/
theorem c9_iota_block_mismatch :
    GenSource (fun _ => none) 1 minScript ⟨"en"⟩ 1
      = .ok (iotaBlock
        ++ "\r\nrun \x7b\r\nSetLogLevel(1)\r\ninit()\r\n\r\ndeinit()\x7d")
    ∧ iotaIdents = ["LOG_DISABLE", "LOG_ERROR", "LOG_WARN", "LOG_FORM",
        "LOG_INFO", "LOG_DEBUG"]
    ∧ ¬ iotaIdents.length = 5
    ∧ iotaIdents[3]? = some "LOG_FORM"
    ∧ iotaIdents[4]? = some "LOG_INFO"
    ∧ LOG_INFO = 3
    ∧ iotaIdents[5]? = some "LOG_DEBUG"
    ∧ LOG_DEBUG = 4 := by
  refine ⟨by decide, by decide, by decide, by decide, by decide,
    by decide, by decide, by decide⟩

theorem intercalate_comma_nil : String.intercalate "," ([] : List String) = "" := rfl

theorem simpleNode_Disable (n : String) (vals : String → Option RawVal) :
    (simpleNode n vals).Disable = false := rfl

theorem lit_close_paren : ("(" : String) ++ ")\r\n" = "()\r\n" := by decide

theorem lit_close_paren_brace :
    ("(" : String) ++ ") \x7b\r\n" = "() \x7b\r\n" := by decide

theorem lit_backtick_paren : ("`" : String) ++ ")\r\n" = "`)\r\n" := by decide

/-- First compilation of a node referencing a not-yet-linked simple
definition: the function block is appended and a call statement
returned. -/
theorem script_first_emits (src : Source) (n title c : String)
    (fuel : Nat) (vals : String → Option RawVal)
    (hn : ¬ n = SourceCode)
    (hlinked : src.Linked (IdName n) = false) :
    Source.Script (simpleReg n title c) (fuel + 1) src (simpleNode n vals)
      = .ok (callStmt n,
        { src with
          Linked := fun m => if m = IdName n then true else src.Linked m,
          Funcs := src.Funcs ++ funcBlock n c }) := by
  have hlog : ¬ (LOG_INHERIT < LOG_INHERIT) := by decide
  have hl : src.Linked n = false := hlinked
  simp only [Source.Script, simpleReg, simpleNode, simpleScript, IdName,
    if_pos, ScriptValues, coerceParams, TreeGo, Predefined, hn, hl,
    hlog, List.length_nil, List.map_nil, List.foldl_nil,
    intercalate_comma_nil, callStmt, funcBlock]
  simp [hn, hl, String.append_empty, String.empty_append,
    String.append_assoc, intercalate_comma_nil, lit_close_paren,
    lit_close_paren_brace, lit_backtick_paren]

/-- Re-compiling a node whose definition is already linked emits only
the call statement and leaves the state untouched. -/
theorem script_again_no_emit (src : Source) (n title c : String)
    (fuel : Nat) (vals : String → Option RawVal)
    (hn : ¬ n = SourceCode)
    (hlinked : src.Linked (IdName n) = true) :
    Source.Script (simpleReg n title c) (fuel + 1) src (simpleNode n vals)
      = .ok (callStmt n, src) := by
  have hl : src.Linked n = true := hlinked
  simp only [Source.Script, simpleReg, simpleNode, simpleScript, IdName,
    if_pos, ScriptValues, coerceParams, hn, hl, callStmt]
  simp [hn, hl, String.append_empty, String.empty_append,
    String.append_assoc, intercalate_comma_nil, lit_close_paren]

/-- C2: per-definition memoization.  Compiling a tree in which the same
non-raw-source definition is referenced by three enabled nodes appends
exactly one function block for that definition to the accumulated
function text (keyed by the definition's name: `Linked` gains exactly
that key) and emits one call-site statement per referencing node. -/
theorem c2_memoization (src : Source) (n title c : String) (fuel : Nat)
    (vals : String → Option RawVal)
    (hn : ¬ n = SourceCode)
    (hlinked : src.Linked (IdName n) = false) :
    Source.Tree (simpleReg n title c) (fuel + 1) src
      [simpleNode n vals, simpleNode n vals, simpleNode n vals]
      = .ok (callStmt n ++ (callStmt n ++ callStmt n),
        { src with
          Linked := fun m => if m = IdName n then true else src.Linked m,
          Funcs := src.Funcs ++ funcBlock n c }) := by
  have h1 := script_first_emits src n title c fuel vals hn hlinked
  have h2 := script_again_no_emit
    ({ src with
        Linked := fun m => if m = IdName n then true else src.Linked m,
        Funcs := src.Funcs ++ funcBlock n c }) n title c fuel vals hn
    (by simp)
  simp only [Source.Tree, TreeGo, simpleNode_Disable, Bool.false_eq_true,
    if_false, h1, h2, Bind.bind, Except.bind]
  simp [String.append_empty, String.append_assoc]

/-- Witness for C2 at concrete inputs: definition "job" with code "body",
starting from a fresh compiler state. -/
theorem c2_memoization_witness :
    (¬ "job" = SourceCode)
    ∧ (newSource ⟨"en"⟩).Linked (IdName "job") = false
    ∧ Source.Tree (simpleReg "job" "J" "body") 1 (newSource ⟨"en"⟩)
        [simpleNode "job" (fun _ => none), simpleNode "job" (fun _ => none),
          simpleNode "job" (fun _ => none)]
      = .ok (callStmt "job" ++ (callStmt "job" ++ callStmt "job"),
        { newSource ⟨"en"⟩ with
          Linked := fun m => if m = IdName "job" then true
            else (newSource ⟨"en"⟩).Linked m,
          Funcs := (newSource ⟨"en"⟩).Funcs ++ funcBlock "job" "body" }) :=
  ⟨by decide, rfl,
    c2_memoization (newSource ⟨"en"⟩) "job" "J" "body" 0 (fun _ => none)
      (by decide) rfl⟩

end Eonza
